import Mathlib

/-!
Verification of the `maker` Makefile scaffolder.

The program (main.go) renders a Go `html/template` over ten boolean
toggles, normalizes the rendered text with the regex replacement
`\n\n+` → `\n\n`, and writes the result plus a few starter files into a
freshly created directory.  This file embeds the template rendering, the
normalization pass, and the I/O skeleton of `main`, and proves the
specified properties about them.
-/

set_option maxRecDepth 40000

namespace Maker

/-- The ten boolean command line toggles of main.go (flag declarations in
`main`, lines 104–113), in declaration order. -/
structure ToggleSet where
  test : Bool
  bench : Bool
  shadow : Bool
  cover : Bool
  coverHTML : Bool
  cpuProfile : Bool
  memProfile : Bool
  race : Bool
  testRace : Bool
  library : Bool
deriving DecidableEq, Repr

/-- Template text of lines 13–30 of `makefileTemplate`, up to the point where
the `\x7b\x7b- if .shadow\x7d\x7d` action trims the trailing newline of the
`@go vet ./...` line (leading-dash actions in Go templates delete all
immediately preceding whitespace). -/
def headerText : String := ".DEFAULT_GOAL := help\n\nBIN = $(CURDIR)/bin\nVERSION ?= $(shell git describe --tags --always --dirty --match=v* 2> /dev/null || echo v0)\n\n$(BIN):\n\t@mkdir -p $@\n\n.PHONY:phony\n\nfmt: phony ## format the codes\n\t@go fmt ./...\n\nlint: phony fmt ## lint the codes\n\t@golint ./...\n\nvet: phony lint ## vet the codes\n\t@go vet ./..."

/-- Body of the `.shadow` conditional on line 31: emitted directly after the
`@go vet ./...` text when the shadow toggle is set. -/
def shadowText : String := "\t@shadow ./..."

/-- Body of the `not .library` branch (lines 33–41): executable build and run
steps.  The text starts with the newline that follows the opening action and
ends with the newline that precedes the else action. -/
def execBody : String := "\nbuild: phony vet | $(BIN) ## build the binary\n\t@go build \\\n\t\t-tags release \\\n\t\t-ldflags \x27-X main.Version=$(VERSION)\x27 \\\n\t\t-o $(BIN)/ ./...\n\nrun: phony vet ## run the binary\n\t@go run main.go\n"

/-- Body of the else branch (lines 42–44): library build step. -/
def libBody : String := "\nbuild: phony vet ## build the library\n\t@go build ./...\n"

/-- Unconditional text between the build conditional and the `.test`
conditional (lines 45–49); the `\x7b\x7b- if .test\x7d\x7d` action trims the
trailing blank line after `rm -rf $(BIN)`. -/
def cleanText : String := "\n\nclean: phony\n\trm -rf $(BIN)"

/-- Body of the `.test` conditional (lines 50–53). -/
def testBlock : String := "\ntest: phony vet ## test the codes\n\t@go test -v ./...\n"

/-- Body of the `.bench` conditional (lines 55–58). -/
def benchBlock : String := "\nbench: phony vet ## test with benchmarks\n\t@go test -v -bench=. -benchmem ./...\n"

/-- Body of the `and .test .cover` conditional (lines 60–63). -/
def coverBlock : String := "\ntest-cover: phony vet ## test with coverage\n\t@go test -v -cover ./...\n"

/-- Body of the `and .test .coverHTML` conditional (lines 65–69). -/
def coverHTMLBlock : String := "\ntest-cover-html: phony vet ## test with coverage in an HTML view\n\t@go test -v -cover -coverprofile=c.out ./...\n\t@go tool cover -html=c.out\n"

/-- Body of the `.testRace` conditional (lines 71–74). -/
def testRaceBlock : String := "\ntest-race: phony vet ## test and check for race conditions\n\t@go test -race ./...\n"

/-- Body of the `.race` conditional (lines 76–79). -/
def raceBlock : String := "\nbuild-race: phony vet ## build and check for race conditions\n\t@go build -race\n"

/-- Body of the `.cpuProfile` conditional (lines 81–85); the inner
`.bench` conditional inlines the benchmark flags into the go test call. -/
def cpuBlock (bench : Bool) : String := "\ntest-cpu: phony vet ## test and profile CPU\n\t@go test " ++ (if bench then "-bench=. -benchmem" else "") ++ " -cpuprofile cpu.out ./...\n\t@go tool pprof cpu.out\n"

/-- Body of the `.memProfile` conditional (lines 87–91); the inner
`.bench` conditional inlines the benchmark flags into the go test call. -/
def memBlock (bench : Bool) : String := "\ntest-mem: phony vet ## test and profile memory\n\t@go test " ++ (if bench then "-bench=. -benchmem" else "") ++ " -memprofile mem.out ./...\n\t@go tool pprof mem.out\n"

/-- Unconditional tail of the template (lines 92–98): colour variables and
the help target, ending with the final newline of the template literal. -/
def footerText : String := "\n\nGREEN  := $(shell tput -Txterm setaf 2)\nRESET  := $(shell tput -Txterm sgr0)\n\nhelp: phony ## print this help message\n\t@awk -F \x27:|##\x27 \x27/^[^\\t].+?:.*?##/ \x7b printf \"$\x7bGREEN\x7d%-20s$\x7bRESET\x7d%s\\n\", $$1, $$NF \x7d\x27 $(MAKEFILE_LIST)\n"

/-- Rendering of `makefileTemplate` (template.Execute at line 133) against a
toggle set.  Plain text regions are carried over verbatim; every
`\x7b\x7b- if\x7d\x7d` action deletes the whitespace that precedes it (this
trimming is reflected in the boundaries of the literals above, e.g. the text
between two consecutive optional blocks is empty because the leading-dash
action of the second block deletes the two newlines left behind by the first); each
conditional contributes its body exactly when its predicate holds. -/
def render (tg : ToggleSet) : String :=
  headerText ++ (if tg.shadow then shadowText else "")
  ++ "\n\n"
  ++ (if !tg.library then execBody else libBody)
  ++ cleanText
  ++ (if tg.test then testBlock else "")
  ++ (if tg.bench then benchBlock else "")
  ++ (if tg.test && tg.cover then coverBlock else "")
  ++ (if tg.test && tg.coverHTML then coverHTMLBlock else "")
  ++ (if tg.testRace then testRaceBlock else "")
  ++ (if tg.race then raceBlock else "")
  ++ (if tg.cpuProfile then cpuBlock tg.bench else "")
  ++ (if tg.memProfile then memBlock tg.bench else "")
  ++ footerText

/-- Replacement text emitted by the normalizer for a maximal run of `n`
newline characters: `regexp.ReplaceAll` leaves a single newline alone and
turns every run of two or more newlines into exactly two. -/
def emitNl (n : Nat) : List Char := List.replicate (min n 2) '\n'

/-- One pass over the character list implementing the regex replacement
`\n\n+` → `\n\n` of main.go lines 152–156: `n` counts the newlines of the
run currently being read; on reaching a non-newline character (or the end)
the run is flushed through `emitNl`. -/
def collapseAux : Nat → List Char → List Char
  | n, [] => emitNl n
  | n, c :: cs =>
    if c = '\n' then collapseAux (n + 1) cs
    else emitNl n ++ c :: collapseAux 0 cs

/-- Whitespace normalization applied to the rendered template
(`regex.ReplaceAll(buffer.Bytes(), []byte("\n\n"))`, line 156). -/
def normalize (s : String) : String := String.mk (collapseAux 0 s.data)

/-- The composed, normalized recipe: contents of the Makefile the program
writes (`cleanBuf` in main.go). -/
def cleanRecipe (tg : ToggleSet) : String := normalize (render tg)

/-- Decides whether a character list contains three consecutive newline
characters somewhere. -/
def hasTriple : List Char → Bool
  | c1 :: c2 :: c3 :: rest =>
    (c1 = '\n' && c2 = '\n' && c3 = '\n') || hasTriple (c2 :: c3 :: rest)
  | _ => false

/-- Filesystem effects performed by `main` after composing the recipe. -/
inductive FsAction where
  | mkdir (name : String)
  | write (path : String) (content : String)
deriving DecidableEq, Repr

/-- Observable outcome of one invocation: what is printed, the exit code
(0 for a normal return), and the filesystem actions attempted in order. -/
structure MainOutcome where
  stdout : String
  exitCode : Nat
  actions : List FsAction
deriving DecidableEq, Repr

/-- Inputs of one invocation after flag parsing: the ten toggles, the
`-mod` string, the `-version` flag, and the positional arguments. -/
structure CLIInput where
  toggles : ToggleSet
  modPath : String
  version : Bool
  args : List String
deriving DecidableEq, Repr

/-- Version string baked into the binary (`var Version = "dev"`). -/
def versionDefault : String := "dev"

/-- Source stub written for an executable project (main.go lines 162–166). -/
def execStub : String := "package main\n\nfunc main() \x7b\n\x7d\n"

/-- Control flow of `main` (main.go lines 119–186): the version flag short
circuits; a positional argument count other than one prints the usage line
and exits with code 1 before any filesystem action; otherwise the directory
is created and the Makefile, the stub source file, optionally a go.mod, and
a .gitignore are written.  Error handling of the filesystem calls themselves
(`panic(err)`) is environmental and not modelled. -/
def mainModel (inp : CLIInput) : MainOutcome :=
  if inp.version then
    ⟨"Version: " ++ versionDefault ++ "\n", 0, []⟩
  else if inp.args.length ≠ 1 then
    ⟨"Expected use: maker DIRNAME\n", 1, []⟩
  else
    let dirName := inp.args.headD ""
    ⟨"", 0,
      [FsAction.mkdir dirName,
       FsAction.write (dirName ++ "/" ++ "Makefile") (cleanRecipe inp.toggles)]
      ++ (if !inp.toggles.library then
            [FsAction.write (dirName ++ "/" ++ "main.go") execStub]
          else
            [FsAction.write (dirName ++ "/" ++ dirName ++ ".go")
              ("package " ++ dirName ++ "\n")])
      ++ (if inp.modPath ≠ "" then
            [FsAction.write (dirName ++ "/" ++ "go.mod")
              ("module " ++ inp.modPath ++ "\n\ngo 1.14\n")]
          else [])
      ++ [FsAction.write (dirName ++ "/" ++ ".gitignore") "bin/"]⟩

/-- Header of the rendered text: the fixed skeleton up to `@go vet ./...`
together with the optional shadow command appended on the same line. -/
def shadowPiece (tg : ToggleSet) : List Char :=
  headerText.data ++ (if tg.shadow then shadowText.data else [])

/-- Suffix chains of the rendered text, from the memProfile block backwards. -/
def chainM (tg : ToggleSet) : List Char :=
  (if tg.memProfile then (memBlock tg.bench).data else []) ++ footerText.data

def chainCP (tg : ToggleSet) : List Char :=
  (if tg.cpuProfile then (cpuBlock tg.bench).data else []) ++ chainM tg

def chainR (tg : ToggleSet) : List Char :=
  (if tg.race then raceBlock.data else []) ++ chainCP tg

def chainTR (tg : ToggleSet) : List Char :=
  (if tg.testRace then testRaceBlock.data else []) ++ chainR tg

def chainCH (tg : ToggleSet) : List Char :=
  (if tg.test && tg.coverHTML then coverHTMLBlock.data else []) ++ chainTR tg

def chainCV (tg : ToggleSet) : List Char :=
  (if tg.test && tg.cover then coverBlock.data else []) ++ chainCH tg

def chainBE (tg : ToggleSet) : List Char :=
  (if tg.bench then benchBlock.data else []) ++ chainCV tg

def chainT (tg : ToggleSet) : List Char :=
  (if tg.test then testBlock.data else []) ++ chainBE tg

def chainCT (tg : ToggleSet) : List Char := cleanText.data ++ chainT tg

def chainB (tg : ToggleSet) : List Char :=
  (if !tg.library then execBody.data else libBody.data) ++ chainCT tg

/-- Terminates in a character other than a newline. -/
def endsOk : List Char → Bool
  | [] => false
  | [c] => c != '\n'
  | _ :: c :: rest => endsOk (c :: rest)

/-- The toggle set in which every flag keeps its default value `false`. -/
def allOff : ToggleSet :=
  { test := false, bench := false, shadow := false, cover := false,
    coverHTML := false, cpuProfile := false, memProfile := false,
    race := false, testRace := false, library := false }

/-- The executable build and run steps of `execBody` without the
surrounding newlines (used to state the normalized output). -/
def execCore : String := "build: phony vet | $(BIN) ## build the binary\n\t@go build \\\n\t\t-tags release \\\n\t\t-ldflags \x27-X main.Version=$(VERSION)\x27 \\\n\t\t-o $(BIN)/ ./...\n\nrun: phony vet ## run the binary\n\t@go run main.go"

/-- The clean step of `cleanText` without its leading blank line. -/
def cleanCore : String := "clean: phony\n\trm -rf $(BIN)"

/-! Properties of the newline collapse -/

theorem hasTriple_cons_true (a : Char) (u : List Char) (hu : hasTriple u = true) :
    hasTriple (a :: u) = true := by
  match u with
  | [] => simp [hasTriple] at hu
  | [d] => simp [hasTriple] at hu
  | d :: e :: r =>
    have h : hasTriple (a :: d :: e :: r)
        = ((a = '\n' && d = '\n' && e = '\n') || hasTriple (d :: e :: r)) := rfl
    rw [h, hu, Bool.or_true]

theorem hasTriple_append_right (x t : List Char) (ht : hasTriple t = true) :
    hasTriple (x ++ t) = true := by
  induction x with
  | nil => simpa using ht
  | cons a x ih => exact hasTriple_cons_true a (x ++ t) ih

theorem hasTriple_false_of_append (x t : List Char) (h : hasTriple (x ++ t) = false) :
    hasTriple t = false := by
  by_contra hc
  rw [hasTriple_append_right x t (by simpa using hc)] at h
  cases h

theorem hasTriple_cons_of_ne (c : Char) (t : List Char) (hc : ¬ c = '\n')
    (ht : hasTriple t = false) : hasTriple (c :: t) = false := by
  match t with
  | [] => rfl
  | [d] => rfl
  | d :: e :: r =>
    have h : hasTriple (c :: d :: e :: r)
        = ((c = '\n' && d = '\n' && e = '\n') || hasTriple (d :: e :: r)) := rfl
    rw [h, ht, Bool.or_false]
    simp [hc]

theorem hasTriple_nl_cons (c : Char) (t : List Char) (hc : ¬ c = '\n')
    (hct : hasTriple (c :: t) = false) : hasTriple ('\n' :: c :: t) = false := by
  match t with
  | [] => rfl
  | e :: r =>
    have he : hasTriple ('\n' :: c :: e :: r)
        = ((('\n' : Char) = '\n' && c = '\n' && e = '\n')
            || hasTriple (c :: e :: r)) := rfl
    rw [he, hct, Bool.or_false]
    simp [hc]

theorem hasTriple_emitNl_append (n : Nat) (c : Char) (t : List Char) (hc : ¬ c = '\n')
    (ht : hasTriple t = false) : hasTriple (emitNl n ++ c :: t) = false := by
  have hct : hasTriple (c :: t) = false := hasTriple_cons_of_ne c t hc ht
  have h1 : hasTriple ('\n' :: c :: t) = false := hasTriple_nl_cons c t hc hct
  have h0 : hasTriple ('\n' :: '\n' :: c :: t) = false := by
    have he : hasTriple ('\n' :: '\n' :: c :: t)
        = ((('\n' : Char) = '\n' && ('\n' : Char) = '\n' && c = '\n')
            || hasTriple ('\n' :: c :: t)) := rfl
    rw [he, h1, Bool.or_false]
    simp [hc]
  have hmin : min n 2 = 0 ∨ min n 2 = 1 ∨ min n 2 = 2 := by omega
  rcases hmin with hm0 | hm1 | hm2
  · rw [emitNl, hm0]
    simpa using hct
  · rw [emitNl, hm1]
    simpa [List.replicate] using h1
  · rw [emitNl, hm2]
    simpa [List.replicate] using h0

theorem hasTriple_collapseAux (gl : List Char) : ∀ n, hasTriple (collapseAux n gl) = false := by
  induction gl with
  | nil =>
    intro n
    rw [collapseAux]
    have hmn : min n 2 = 0 ∨ min n 2 = 1 ∨ min n 2 = 2 := by omega
    rcases hmn with hq0 | hq1 | hq2
    · rw [emitNl, hq0]
      rfl
    · rw [emitNl, hq1]
      rfl
    · rw [emitNl, hq2]
      rfl
  | cons c cs ih =>
    intro n
    rw [collapseAux]
    by_cases hc : c = '\n'
    · rw [if_pos hc]; exact ih (n + 1)
    · rw [if_neg hc]; exact hasTriple_emitNl_append n c (collapseAux 0 cs) hc (ih 0)

theorem collapseAux_eq_self (el : List Char) : ∀ n, n ≤ 2 →
    hasTriple (List.replicate n '\n' ++ el) = false →
    collapseAux n el = List.replicate n '\n' ++ el := by
  induction el with
  | nil =>
    intro n hn _
    rw [collapseAux, emitNl, Nat.min_eq_left hn, List.append_nil]
  | cons c cs ih =>
    intro n hn h
    rw [collapseAux]
    by_cases hc : c = '\n'
    · rw [if_pos hc]
      subst hc
      have hshift : List.replicate n '\n' ++ '\n' :: cs
          = List.replicate (n + 1) '\n' ++ cs := by
        rw [List.replicate_succ']; simp
      have hn1 : n + 1 ≤ 2 := by
        rcases Nat.lt_or_ge n 2 with h' | h'
        · omega
        · exfalso
          have hn2 : n = 2 := by omega
          subst hn2
          rw [show (List.replicate 2 '\n' ++ '\n' :: cs)
              = '\n' :: '\n' :: '\n' :: cs by rfl] at h
          have : hasTriple ('\n' :: '\n' :: '\n' :: cs) = true := by
            have he : hasTriple ('\n' :: '\n' :: '\n' :: cs)
                = ((('\n' : Char) = '\n' && ('\n' : Char) = '\n' && ('\n' : Char) = '\n')
                    || hasTriple ('\n' :: '\n' :: cs)) := rfl
            rw [he]; simp
          rw [this] at h; cases h
      rw [hshift] at h ⊢
      exact ih (n + 1) hn1 h
    · rw [if_neg hc]
      have hcs : hasTriple cs = false := by
        have h1 : hasTriple (c :: cs) = false :=
          hasTriple_false_of_append (List.replicate n '\n') (c :: cs) h
        exact hasTriple_false_of_append [c] cs h1
      rw [ih 0 (by omega) (by simpa using hcs), emitNl, Nat.min_eq_left hn]
      simp

theorem collapseAux_idem (l : List Char) :
    collapseAux 0 (collapseAux 0 l) = collapseAux 0 l := by
  have h := collapseAux_eq_self (collapseAux 0 l) 0 (by omega)
    (by simpa using hasTriple_collapseAux l 0)
  simpa using h

/-! Occurrence of a newline free pattern, and its invariance under
the collapse pass -/

theorem occ_ext_left (p a b : List Char) (h : p <:+: a) : p <:+: a ++ b :=
  h.trans ( List.IsPrefix.isInfix (List.prefix_append a b))

theorem occ_ext_right (p a b : List Char) (h : p <:+: b) : p <:+: a ++ b :=
  h.trans ( List.IsSuffix.isInfix (List.suffix_append a b))

theorem occ_cons_nl (p b : List Char) (hp : '\n' ∉ p) :
    p <:+: '\n' :: b ↔ p <:+: b := by
  constructor
  · intro h
    rcases List.infix_cons_iff.mp h with h | h
    · rcases p with _ | ⟨d, q⟩
      · exact List.nil_infix
      · rcases List.cons_prefix_cons.mp h with ⟨hd, _⟩
        exact absurd (hd ▸ List.mem_cons_self d q) hp
    · exact h
  · exact List.infix_cons

theorem pref_cut (p : List Char) (hp : '\n' ∉ p) :
    ∀ xx yy : List Char, p <+: xx ++ '\n' :: yy → p <+: xx := by
  induction p with
  | nil => intro xx yy _; exact List.nil_prefix
  | cons d q ih =>
    intro xx yy h
    rcases xx with _ | ⟨e, xx'⟩
    · rcases List.cons_prefix_cons.mp h with ⟨hd, _⟩
      exact absurd (hd ▸ List.mem_cons_self d q) hp
    · rcases List.cons_prefix_cons.mp h with ⟨hd, hq⟩
      have hq' : q <+: xx' := ih (fun hm => hp (List.mem_cons_of_mem d hm)) xx' yy hq
      exact List.cons_prefix_cons.mpr ⟨hd, hq'⟩

theorem occ_cut (p : List Char) (hp : '\n' ∉ p) :
    ∀ a b : List Char, p <:+: a ++ '\n' :: b ↔ p <:+: a ∨ p <:+: b := by
  intro a b
  constructor
  · intro h
    induction a with
    | nil =>
      rcases p with _ | ⟨d, q⟩
      · exact Or.inl List.nil_infix
      · exact Or.inr ((occ_cons_nl (d :: q) b hp).mp h)
    | cons c a' iha =>
      rw [List.cons_append] at h
      rcases List.infix_cons_iff.mp h with h | h
      · exact Or.inl
          ( List.IsPrefix.isInfix (pref_cut p hp (c :: a') b (by simpa using h)))
      · rcases iha h with h' | h'
        · exact Or.inl (List.infix_cons h')
        · exact Or.inr h'
  · intro h
    rcases h with h | h
    · exact occ_ext_left p a ('\n' :: b) h
    · exact occ_ext_right p a ('\n' :: b) (List.infix_cons h)

theorem emitNl_zero : emitNl 0 = [] := rfl

theorem pref_collapse (p : List Char) (hp : '\n' ∉ p) :
    ∀ vs : List Char, p <+: vs → p <+: collapseAux 0 vs := by
  induction p with
  | nil => intro vs _; exact List.nil_prefix
  | cons d q ih =>
    intro vs h
    rcases vs with _ | ⟨e, vs'⟩
    · exact absurd ( List.prefix_nil.mp h) (by simp)
    · rcases List.cons_prefix_cons.mp h with ⟨hd, hq⟩
      have hd' : ¬ e = '\n' := by
        intro he
        exact hp (by simp [hd, he])
      rw [collapseAux, if_neg hd', emitNl_zero, List.nil_append]
      exact List.cons_prefix_cons.mpr
        ⟨hd, ih (fun hm => hp (List.mem_cons_of_mem d hm)) vs' hq⟩

theorem occ_collapse_fwd (p : List Char) (hp : '\n' ∉ p) :
    ∀ lsq : List Char, p <:+: lsq → ∀ n, p <:+: collapseAux n lsq := by
  intro lsq
  induction lsq with
  | nil =>
    intro h n
    rw [ List.infix_nil.mp h]
    exact List.nil_infix
  | cons c cs ih =>
    intro h n
    rcases List.infix_cons_iff.mp h with h | h
    · rcases p with _ | ⟨d, q⟩
      · exact List.nil_infix
      · rcases List.cons_prefix_cons.mp h with ⟨hd, hq⟩
        have hc : ¬ c = '\n' := by
          intro he
          exact hp (by simp [hd, he])
        rw [collapseAux, if_neg hc]
        refine occ_ext_right _ (emitNl n) _ ?_
        exact List.IsPrefix.isInfix ( List.cons_prefix_cons.mpr
          ⟨hd, pref_collapse q (fun hm => hp (List.mem_cons_of_mem d hm)) cs hq⟩)
    · rw [collapseAux]
      by_cases hc : c = '\n'
      · rw [if_pos hc]; exact ih h (n + 1)
      · rw [if_neg hc]
        exact occ_ext_right _ (emitNl n) _ (List.infix_cons (ih h 0))

theorem collapse_head_nl : ∀ (zl : List Char) (n : Nat), 1 ≤ n →
    ∃ u, collapseAux n zl = '\n' :: u := by
  intro zl
  induction zl with
  | nil =>
    intro n hn
    rw [collapseAux, emitNl]
    have hmn : min n 2 = 1 ∨ min n 2 = 2 := by omega
    rcases hmn with hq1 | hq2
    · rw [hq1]
      exact ⟨[], rfl⟩
    · rw [hq2]
      exact ⟨['\n'], rfl⟩
  | cons c cs ih =>
    intro n hn
    rw [collapseAux]
    by_cases hc : c = '\n'
    · rw [if_pos hc]; exact ih (n + 1) (by omega)
    · rw [if_neg hc, emitNl]
      have hmn : min n 2 = 1 ∨ min n 2 = 2 := by omega
      rcases hmn with hq1 | hq2
      · rw [hq1]
        exact ⟨c :: collapseAux 0 cs, rfl⟩
      · rw [hq2]
        exact ⟨'\n' :: c :: collapseAux 0 cs, rfl⟩

theorem pref_collapse_pos (p : List Char) (hp : '\n' ∉ p) (n : Nat) (hok : 1 ≤ n)
    (cs : List Char) (h : p <+: collapseAux n cs) : p = [] := by
  rcases collapse_head_nl cs n hok with ⟨u, hu⟩
  rw [hu] at h
  rcases p with _ | ⟨d, q⟩
  · rfl
  · rcases List.cons_prefix_cons.mp h with ⟨hd, _⟩
    exact absurd (hd ▸ List.mem_cons_self d q) hp

theorem pref_collapse_rev (p : List Char) (hp : '\n' ∉ p) :
    ∀ wsq : List Char, p <+: collapseAux 0 wsq → p <+: wsq := by
  have main : ∀ (wsq : List Char) (p : List Char), '\n' ∉ p →
      p <+: collapseAux 0 wsq → p <+: wsq := by
    intro wsq
    induction wsq with
    | nil =>
      intro p hp h
      rw [collapseAux, emitNl_zero] at h
      rw [ List.prefix_nil.mp h]
    | cons d ds ih =>
      intro p hp h
      rw [collapseAux] at h
      by_cases hd : d = '\n'
      · rw [if_pos hd] at h
        rw [pref_collapse_pos p hp 1 (by omega) ds h]
        exact List.nil_prefix
      · rw [if_neg hd, emitNl_zero, List.nil_append] at h
        rcases p with _ | ⟨e, q⟩
        · exact List.nil_prefix
        · rcases List.cons_prefix_cons.mp h with ⟨he, hq⟩
          exact List.cons_prefix_cons.mpr
            ⟨he, ih q (fun hm => hp (List.mem_cons_of_mem e hm)) hq⟩
  intro wsq
  exact main wsq p hp

theorem occ_drop_nl (p : List Char) (hp : '\n' ∉ p) :
    ∀ (kk : Nat) (r : List Char), p <:+: List.replicate kk '\n' ++ r → p <:+: r := by
  intro kk
  induction kk with
  | zero => intro r h; simpa using h
  | succ kk ih =>
    intro r h
    rcases p with _ | ⟨d, q⟩
    · exact List.nil_infix
    · rw [List.replicate_succ, List.cons_append] at h
      exact ih r ((occ_cons_nl (d :: q) _ hp).mp h)

theorem occ_collapse_bwd (p : List Char) (hp : '\n' ∉ p) :
    ∀ (ul : List Char) (n : Nat), p <:+: collapseAux n ul → p <:+: ul := by
  intro ul
  induction ul with
  | nil =>
    intro n h
    rcases p with _ | ⟨d, q⟩
    · exact List.nil_infix
    · exfalso
      rw [collapseAux, emitNl] at h
      have hd : d ∈ List.replicate (min n 2) '\n' :=
        List.IsInfix.subset h (List.mem_cons_self d q)
      exact hp (by rw [← List.eq_of_mem_replicate hd]; exact List.mem_cons_self d q)
  | cons c cs ih =>
    intro n h
    rw [collapseAux] at h
    by_cases hc : c = '\n'
    · rw [if_pos hc] at h
      rw [hc]
      exact List.infix_cons (ih (n + 1) h)
    · rw [if_neg hc, emitNl] at h
      have h' : p <:+: c :: collapseAux 0 cs := occ_drop_nl p hp (min n 2) _ h
      rcases List.infix_cons_iff.mp h' with h'' | h''
      · rcases p with _ | ⟨d, q⟩
        · exact List.nil_infix
        · rcases List.cons_prefix_cons.mp h'' with ⟨hd, hq⟩
          exact List.IsPrefix.isInfix ( List.cons_prefix_cons.mpr
            ⟨hd, pref_collapse_rev q (fun hm => hp (List.mem_cons_of_mem d hm)) cs hq⟩)
      · exact List.infix_cons (ih 0 h'')

theorem occ_collapse (p : List Char) (hp : '\n' ∉ p) (l : List Char) :
    p <:+: collapseAux 0 l ↔ p <:+: l :=
  ⟨fun h => occ_collapse_bwd p hp l 0 h, fun h => occ_collapse_fwd p hp l h 0⟩

theorem occ_normalize (p : List Char) (hp : '\n' ∉ p) (s : String) :
    p <:+: (normalize s).data ↔ p <:+: s.data :=
  occ_collapse p hp s.data

/-! Decomposition of the rendered template at newline boundaries -/

theorem data_ite (t : Bool) (a b : String) :
    (if t then a else b).data = if t then a.data else b.data := by
  cases t <;> rfl

theorem data_nil : ("" : String).data = [] := rfl

theorem renderData_eq (tg : ToggleSet) :
    (render tg).data = shadowPiece tg ++ ('\n' :: '\n' :: chainB tg) := by
  simp only [render, String.data_append, data_ite, data_nil, shadowPiece,
    chainB, chainCT, chainT, chainBE, chainCV, chainCH, chainTR, chainR,
    chainCP, chainM, List.append_assoc]
  rfl

/-! Leading-newline facts for the conditional blocks and chains. -/

theorem nl_head_execBody : ∃ u, execBody.data = '\n' :: u :=
  ⟨execBody.data.tail, by decide⟩

theorem nl_head_libBody : ∃ u, libBody.data = '\n' :: u :=
  ⟨libBody.data.tail, by decide⟩

theorem nl_head_cleanText : ∃ u, cleanText.data = '\n' :: u :=
  ⟨cleanText.data.tail, by decide⟩

theorem nl_head_testBlock : ∃ u, testBlock.data = '\n' :: u :=
  ⟨testBlock.data.tail, by decide⟩

theorem nl_head_benchBlock : ∃ u, benchBlock.data = '\n' :: u :=
  ⟨benchBlock.data.tail, by decide⟩

theorem nl_head_coverBlock : ∃ u, coverBlock.data = '\n' :: u :=
  ⟨coverBlock.data.tail, by decide⟩

theorem nl_head_coverHTMLBlock : ∃ u, coverHTMLBlock.data = '\n' :: u :=
  ⟨coverHTMLBlock.data.tail, by decide⟩

theorem nl_head_testRaceBlock : ∃ u, testRaceBlock.data = '\n' :: u :=
  ⟨testRaceBlock.data.tail, by decide⟩

theorem nl_head_raceBlock : ∃ u, raceBlock.data = '\n' :: u :=
  ⟨raceBlock.data.tail, by decide⟩

theorem nl_head_cpuBlock (b : Bool) : ∃ u, (cpuBlock b).data = '\n' :: u := by
  cases b
  · exact ⟨(cpuBlock false).data.tail, by decide⟩
  · exact ⟨(cpuBlock true).data.tail, by decide⟩

theorem nl_head_memBlock (b : Bool) : ∃ u, (memBlock b).data = '\n' :: u := by
  cases b
  · exact ⟨(memBlock false).data.tail, by decide⟩
  · exact ⟨(memBlock true).data.tail, by decide⟩

theorem nl_head_footerText : ∃ u, footerText.data = '\n' :: u :=
  ⟨footerText.data.tail, by decide⟩

theorem nl_head_opt (t : Bool) (blk rest : List Char)
    (hb : ∃ u, blk = '\n' :: u) (hr : ∃ v, rest = '\n' :: v) :
    ∃ w, (if t then blk else []) ++ rest = '\n' :: w := by
  cases t
  · simpa using hr
  · rcases hb with ⟨u, hu⟩
    exact ⟨u ++ rest, by simp [hu]⟩

theorem nl_head_chainM (tg : ToggleSet) : ∃ w, chainM tg = '\n' :: w :=
  nl_head_opt _ _ _ (nl_head_memBlock tg.bench) nl_head_footerText

theorem nl_head_chainCP (tg : ToggleSet) : ∃ w, chainCP tg = '\n' :: w :=
  nl_head_opt _ _ _ (nl_head_cpuBlock tg.bench) (nl_head_chainM tg)

theorem nl_head_chainR (tg : ToggleSet) : ∃ w, chainR tg = '\n' :: w :=
  nl_head_opt _ _ _ nl_head_raceBlock (nl_head_chainCP tg)

theorem nl_head_chainTR (tg : ToggleSet) : ∃ w, chainTR tg = '\n' :: w :=
  nl_head_opt _ _ _ nl_head_testRaceBlock (nl_head_chainR tg)

theorem nl_head_chainCH (tg : ToggleSet) : ∃ w, chainCH tg = '\n' :: w :=
  nl_head_opt _ _ _ nl_head_coverHTMLBlock (nl_head_chainTR tg)

theorem nl_head_chainCV (tg : ToggleSet) : ∃ w, chainCV tg = '\n' :: w :=
  nl_head_opt _ _ _ nl_head_coverBlock (nl_head_chainCH tg)

theorem nl_head_chainBE (tg : ToggleSet) : ∃ w, chainBE tg = '\n' :: w :=
  nl_head_opt _ _ _ nl_head_benchBlock (nl_head_chainCV tg)

theorem nl_head_chainT (tg : ToggleSet) : ∃ w, chainT tg = '\n' :: w :=
  nl_head_opt _ _ _ nl_head_testBlock (nl_head_chainBE tg)

theorem nl_head_chainCT (tg : ToggleSet) : ∃ w, chainCT tg = '\n' :: w := by
  rcases nl_head_cleanText with ⟨u, hu⟩
  exact ⟨u ++ chainT tg, by simp [chainCT, hu]⟩

/-! Cut rules for the occurrence of a newline free pattern in the chains. -/

theorem occ_before_nl (p : List Char) (hp : '\n' ∉ p) (a rest : List Char)
    (hr : ∃ v, rest = '\n' :: v) :
    p <:+: a ++ rest ↔ p <:+: a ∨ p <:+: rest := by
  rcases hr with ⟨v, hv⟩
  subst hv
  rw [occ_cut p hp a v]
  constructor
  · rintro (hIn1 | hIn2)
    · exact Or.inl hIn1
    · exact Or.inr (List.infix_cons hIn2)
  · rintro (hIn3 | hIn4)
    · exact Or.inl hIn3
    · exact Or.inr ((occ_cons_nl p v hp).mp hIn4)

theorem occ_opt (p : List Char) (hp : '\n' ∉ p) (t : Bool) (blk rest : List Char)
    (hr : ∃ v, rest = '\n' :: v) :
    p <:+: (if t then blk else []) ++ rest
      ↔ (t = true ∧ p <:+: blk) ∨ p <:+: rest := by
  cases t
  · simp
  · rw [if_pos rfl, occ_before_nl p hp blk rest hr]
    simp

theorem occ_opt2 (p : List Char) (hp : '\n' ∉ p) (t : Bool) (b₁ b₂ rest : List Char)
    (hr : ∃ v, rest = '\n' :: v) :
    p <:+: (if t then b₁ else b₂) ++ rest
      ↔ (t = true ∧ p <:+: b₁) ∨ (t = false ∧ p <:+: b₂) ∨ p <:+: rest := by
  cases t
  · rw [if_neg (by simp), occ_before_nl p hp b₂ rest hr]
    simp
  · rw [if_pos rfl, occ_before_nl p hp b₁ rest hr]
    simp

/-- Occurrence of a newline free pattern in the composed, normalized recipe,
reduced to its occurrence in the individual catalog fragments. -/
theorem occ_cleanRecipe (p : List Char) (hp : '\n' ∉ p) (tg : ToggleSet) :
    p <:+: (cleanRecipe tg).data ↔
      p <:+: shadowPiece tg
      ∨ (tg.library = false ∧ p <:+: execBody.data)
      ∨ (tg.library = true ∧ p <:+: libBody.data)
      ∨ p <:+: cleanText.data
      ∨ (tg.test = true ∧ p <:+: testBlock.data)
      ∨ (tg.bench = true ∧ p <:+: benchBlock.data)
      ∨ ((tg.test && tg.cover) = true ∧ p <:+: coverBlock.data)
      ∨ ((tg.test && tg.coverHTML) = true ∧ p <:+: coverHTMLBlock.data)
      ∨ (tg.testRace = true ∧ p <:+: testRaceBlock.data)
      ∨ (tg.race = true ∧ p <:+: raceBlock.data)
      ∨ (tg.cpuProfile = true ∧ p <:+: (cpuBlock tg.bench).data)
      ∨ (tg.memProfile = true ∧ p <:+: (memBlock tg.bench).data)
      ∨ p <:+: footerText.data := by
  have h0 : (cleanRecipe tg).data = collapseAux 0 (render tg).data := rfl
  rw [h0, occ_collapse p hp, renderData_eq,
    occ_before_nl p hp (shadowPiece tg) ('\n' :: '\n' :: chainB tg)
      ⟨'\n' :: chainB tg, rfl⟩,
    occ_cons_nl p ('\n' :: chainB tg) hp, occ_cons_nl p (chainB tg) hp,
    show chainB tg
      = (if !tg.library then execBody.data else libBody.data) ++ chainCT tg from rfl,
    occ_opt2 p hp (!tg.library) execBody.data libBody.data (chainCT tg)
      (nl_head_chainCT tg),
    show chainCT tg = cleanText.data ++ chainT tg from rfl,
    occ_before_nl p hp cleanText.data (chainT tg) (nl_head_chainT tg),
    show chainT tg = (if tg.test then testBlock.data else []) ++ chainBE tg from rfl,
    occ_opt p hp tg.test testBlock.data (chainBE tg) (nl_head_chainBE tg),
    show chainBE tg = (if tg.bench then benchBlock.data else []) ++ chainCV tg from rfl,
    occ_opt p hp tg.bench benchBlock.data (chainCV tg) (nl_head_chainCV tg),
    show chainCV tg
      = (if tg.test && tg.cover then coverBlock.data else []) ++ chainCH tg from rfl,
    occ_opt p hp (tg.test && tg.cover) coverBlock.data (chainCH tg)
      (nl_head_chainCH tg),
    show chainCH tg
      = (if tg.test && tg.coverHTML then coverHTMLBlock.data else []) ++ chainTR tg
      from rfl,
    occ_opt p hp (tg.test && tg.coverHTML) coverHTMLBlock.data (chainTR tg)
      (nl_head_chainTR tg),
    show chainTR tg
      = (if tg.testRace then testRaceBlock.data else []) ++ chainR tg from rfl,
    occ_opt p hp tg.testRace testRaceBlock.data (chainR tg) (nl_head_chainR tg),
    show chainR tg = (if tg.race then raceBlock.data else []) ++ chainCP tg from rfl,
    occ_opt p hp tg.race raceBlock.data (chainCP tg) (nl_head_chainCP tg),
    show chainCP tg
      = (if tg.cpuProfile then (cpuBlock tg.bench).data else []) ++ chainM tg from rfl,
    occ_opt p hp tg.cpuProfile (cpuBlock tg.bench).data (chainM tg)
      (nl_head_chainM tg),
    show chainM tg
      = (if tg.memProfile then (memBlock tg.bench).data else []) ++ footerText.data
      from rfl,
    occ_opt p hp tg.memProfile (memBlock tg.bench).data footerText.data
      nl_head_footerText]
  simp only [Bool.not_eq_true', Bool.not_eq_false']

/-! Splitting the collapse pass at a non newline boundary -/

theorem collapse_split (seg : List Char) (ha : endsOk seg = true) :
    ∀ (n : Nat) (b : List Char),
      collapseAux n (seg ++ b) = collapseAux n seg ++ collapseAux 0 b := by
  induction seg with
  | nil => simp [endsOk] at ha
  | cons c seg' ih =>
    intro n b
    rcases seg' with _ | ⟨d, seg''⟩
    · have hc : ¬ c = '\n' := by simpa [endsOk] using ha
      rw [List.cons_append, List.nil_append, collapseAux, if_neg hc,
        collapseAux, if_neg hc, collapseAux, emitNl_zero]
      simp
    · have ha' : endsOk (d :: seg'') = true := by simpa [endsOk] using ha
      rw [List.cons_append, collapseAux, collapseAux]
      by_cases hc : c = '\n'
      · rw [if_pos hc, if_pos hc, ih ha' (n + 1) b]
      · rw [if_neg hc, if_neg hc, ih ha' 0 b]
        simp


/-! The fully normalized recipe for the all false toggle set -/

theorem collapse_nl_step (n : Nat) (X : List Char) :
    collapseAux n ('\n' :: X) = collapseAux (n + 1) X := by
  rw [collapseAux, if_pos rfl]

theorem collapse_nl3 (X : List Char) :
    collapseAux 0 ('\n' :: '\n' :: '\n' :: X) = collapseAux 3 X := by
  rw [collapse_nl_step, collapse_nl_step, collapse_nl_step]

theorem execBody_shape : execBody.data = '\n' :: (execCore.data ++ ['\n']) := by
  decide

theorem cleanText_shape : cleanText.data = '\n' :: '\n' :: cleanCore.data := by
  decide

theorem collapse_headerText : collapseAux 0 headerText.data = headerText.data := by
  decide

theorem collapse_footerText : collapseAux 0 footerText.data = footerText.data := by
  decide

theorem collapse3_execCore :
    collapseAux 3 execCore.data = '\n' :: '\n' :: execCore.data := by
  decide

theorem collapse3_cleanCore :
    collapseAux 3 cleanCore.data = '\n' :: '\n' :: cleanCore.data := by
  decide


theorem data_mk (l : List Char) : (String.mk l).data = l := rfl

theorem cleanRecipe_allOff :
    cleanRecipe allOff
      = headerText ++ "\n\n" ++ execCore ++ "\n\n" ++ cleanCore ++ footerText := by
  decide

/-- Occurrence in the recipe of the default toggle set, reduced to the four
fragments that are present in it. -/
theorem occ_allOff (p : List Char) (hp : '\n' ∉ p) :
    p <:+: (cleanRecipe allOff).data ↔
      p <:+: headerText.data ∨ p <:+: execBody.data
        ∨ p <:+: cleanText.data ∨ p <:+: footerText.data := by
  rw [occ_cleanRecipe p hp allOff]
  simp only [allOff, shadowPiece, Bool.false_eq_true, if_false, ite_false,
    List.append_nil, false_and, false_or, or_false, Bool.false_and]
  tauto

/-! Claim theorems -/

/-- C1: for every ToggleSet the composed recipe contains no run of three or
more consecutive newline characters (every run of two or more blank lines
has been collapsed to the single allowed blank line), and applying the
collapse rule to the already normalized recipe returns it unchanged. -/
theorem thm_C1 (tg : ToggleSet) :
    hasTriple (cleanRecipe tg).data = false
      ∧ normalize (cleanRecipe tg) = cleanRecipe tg := by
  constructor
  · exact hasTriple_collapseAux (render tg).data 0
  · simp only [cleanRecipe, normalize, data_mk]
    rw [collapseAux_idem]

/-- C5: with every toggle false the composed recipe is exactly the mandatory
skeleton - the header with its formatting and static analysis steps, the
executable build and run steps, the clean step, and the footer with the help
step, in that order - and none of the optional targets occurs in it. -/
theorem thm_C5 :
    cleanRecipe allOff
        = headerText ++ "\n\n" ++ execCore ++ "\n\n" ++ cleanCore ++ footerText
      ∧ ¬ ("test:" : String).data <:+: (cleanRecipe allOff).data
      ∧ ¬ ("bench:" : String).data <:+: (cleanRecipe allOff).data
      ∧ ¬ ("test-cover:" : String).data <:+: (cleanRecipe allOff).data
      ∧ ¬ ("test-cover-html:" : String).data <:+: (cleanRecipe allOff).data
      ∧ ¬ ("test-race:" : String).data <:+: (cleanRecipe allOff).data
      ∧ ¬ ("build-race:" : String).data <:+: (cleanRecipe allOff).data
      ∧ ¬ ("test-cpu:" : String).data <:+: (cleanRecipe allOff).data
      ∧ ¬ ("test-mem:" : String).data <:+: (cleanRecipe allOff).data := by
  have habs1 : ¬ ("test:" : String).data <:+: (cleanRecipe allOff).data := by
    rw [occ_allOff _ (by decide)]
    decide
  have habs2 : ¬ ("bench:" : String).data <:+: (cleanRecipe allOff).data := by
    rw [occ_allOff _ (by decide)]
    decide
  have habs3 : ¬ ("test-cover:" : String).data <:+: (cleanRecipe allOff).data := by
    rw [occ_allOff _ (by decide)]
    decide
  have habs4 : ¬ ("test-cover-html:" : String).data <:+: (cleanRecipe allOff).data := by
    rw [occ_allOff _ (by decide)]
    decide
  have habs5 : ¬ ("test-race:" : String).data <:+: (cleanRecipe allOff).data := by
    rw [occ_allOff _ (by decide)]
    decide
  have habs6 : ¬ ("build-race:" : String).data <:+: (cleanRecipe allOff).data := by
    rw [occ_allOff _ (by decide)]
    decide
  have habs7 : ¬ ("test-cpu:" : String).data <:+: (cleanRecipe allOff).data := by
    rw [occ_allOff _ (by decide)]
    decide
  have habs8 : ¬ ("test-mem:" : String).data <:+: (cleanRecipe allOff).data := by
    rw [occ_allOff _ (by decide)]
    decide
  exact ⟨cleanRecipe_allOff, habs1, habs2, habs3, habs4, habs5, habs6, habs7, habs8⟩

/-- C6: the composed recipe is a pure function of the ten toggle values -
two toggle sets that agree on every toggle yield byte identical recipes. -/
theorem thm_C6 (tg₁ tg₂ : ToggleSet)
    (h₁ : tg₁.test = tg₂.test) (h₂ : tg₁.bench = tg₂.bench)
    (h₃ : tg₁.shadow = tg₂.shadow) (h₄ : tg₁.cover = tg₂.cover)
    (h₅ : tg₁.coverHTML = tg₂.coverHTML) (h₆ : tg₁.cpuProfile = tg₂.cpuProfile)
    (h₇ : tg₁.memProfile = tg₂.memProfile) (h₈ : tg₁.race = tg₂.race)
    (h₉ : tg₁.testRace = tg₂.testRace) (h₁₀ : tg₁.library = tg₂.library) :
    cleanRecipe tg₁ = cleanRecipe tg₂ := by
  have h : tg₁ = tg₂ := by
    cases tg₁
    cases tg₂
    simp_all
  rw [h]

/-- Witness for C6 at a concrete pair of equal toggle sets. -/
theorem thm_C6_witness : cleanRecipe allOff = cleanRecipe allOff :=
  thm_C6 allOff allOff rfl rfl rfl rfl rfl rfl rfl rfl rfl rfl

/-- C8: with the version flag unset and a positional argument count other
than one, the program prints the usage line, exits with the non zero code 1,
and performs no filesystem action at all. -/
theorem thm_C8 (inp : CLIInput) (hv : inp.version = false)
    (hargs : inp.args.length ≠ 1) :
    mainModel inp = ⟨"Expected use: maker DIRNAME\n", 1, []⟩
      ∧ (mainModel inp).exitCode ≠ 0 ∧ (mainModel inp).actions = [] := by
  have h : mainModel inp = ⟨"Expected use: maker DIRNAME\n", 1, []⟩ := by
    simp only [mainModel, hv]
    rw [if_neg (by simp), if_pos hargs]
  refine And.intro h (And.intro ?_ ?_)
  · rw [h]
    simp
  · rw [h]

/-- Witness for C8: the invocation with no positional argument. -/
theorem thm_C8_witness :
    mainModel ⟨allOff, "", false, []⟩
        = ⟨"Expected use: maker DIRNAME\n", 1, []⟩
      ∧ (mainModel ⟨allOff, "", false, []⟩).exitCode ≠ 0
      ∧ (mainModel ⟨allOff, "", false, []⟩).actions = [] :=
  thm_C8 ⟨allOff, "", false, []⟩ rfl (by decide)

/-- C9: the Makefile content written by the program depends only on the
toggles - two invocations with the same toggles but arbitrary directory
names and module paths write, as their second filesystem action, the same
recipe bytes, namely the composed recipe of the toggles. -/
theorem thm_C9 (tg : ToggleSet) (d₁ d₂ m₁ m₂ : String) :
    ∃ content,
      (mainModel ⟨tg, m₁, false, [d₁]⟩).actions.get? 1
          = some (FsAction.write (d₁ ++ "/" ++ "Makefile") content)
        ∧ (mainModel ⟨tg, m₂, false, [d₂]⟩).actions.get? 1
          = some (FsAction.write (d₂ ++ "/" ++ "Makefile") content) :=
  ⟨cleanRecipe tg, rfl, rfl⟩

/-! Helpers for settling marker occurrences against toggles -/

theorem not_occ_shadowPiece (p : List Char) (h1 : ¬ p <:+: headerText.data)
    (h2 : ¬ p <:+: (headerText.data ++ shadowText.data)) (tg : ToggleSet) :
    ¬ p <:+: shadowPiece tg := by
  cases hs : tg.shadow
  · simpa only [shadowPiece, hs, Bool.false_eq_true, if_false, List.append_nil]
      using h1
  · simpa only [shadowPiece, hs, if_true] using h2

theorem occ_shadowPiece_pos (p : List Char) (h : p <:+: headerText.data)
    (tg : ToggleSet) : p <:+: shadowPiece tg :=
  occ_ext_left p headerText.data _ h

theorem not_occ_bdep (p : List Char) (f : Bool → String)
    (h1 : ¬ p <:+: (f false).data) (h2 : ¬ p <:+: (f true).data) (b : Bool) :
    ¬ p <:+: (f b).data := by
  cases b <;> assumption

theorem occ_bdep (p : List Char) (f : Bool → String)
    (h1 : p <:+: (f false).data) (h2 : p <:+: (f true).data) (b : Bool) :
    p <:+: (f b).data := by
  cases b <;> assumption

theorem pickDisj2 {P1 P2 P3 P4 P5 P6 P7 P8 P9 P10 P11 P12 P13 : Prop} (h : P2) :
    P1 ∨ P2 ∨ P3 ∨ P4 ∨ P5 ∨ P6 ∨ P7 ∨ P8 ∨ P9 ∨ P10 ∨ P11 ∨ P12 ∨ P13 := by
  tauto

theorem pickDisj3 {P1 P2 P3 P4 P5 P6 P7 P8 P9 P10 P11 P12 P13 : Prop} (h : P3) :
    P1 ∨ P2 ∨ P3 ∨ P4 ∨ P5 ∨ P6 ∨ P7 ∨ P8 ∨ P9 ∨ P10 ∨ P11 ∨ P12 ∨ P13 := by
  tauto

theorem pickDisj8 {P1 P2 P3 P4 P5 P6 P7 P8 P9 P10 P11 P12 P13 : Prop} (h : P8) :
    P1 ∨ P2 ∨ P3 ∨ P4 ∨ P5 ∨ P6 ∨ P7 ∨ P8 ∨ P9 ∨ P10 ∨ P11 ∨ P12 ∨ P13 := by
  tauto

theorem pickDisj11 {P1 P2 P3 P4 P5 P6 P7 P8 P9 P10 P11 P12 P13 : Prop} (h : P11) :
    P1 ∨ P2 ∨ P3 ∨ P4 ∨ P5 ∨ P6 ∨ P7 ∨ P8 ∨ P9 ∨ P10 ∨ P11 ∨ P12 ∨ P13 := by
  tauto

/-- C2: the coverage HTML block occurs in the composed recipe exactly when
both the test toggle and the coverHTML toggle are set; when either one is
unset no part of the block is emitted (neither its target line nor its
cover tool command). -/
theorem thm_C2 (tg : ToggleSet) :
    (("test-cover-html: phony vet ## test with coverage in an HTML view" : String).data
        <:+: (cleanRecipe tg).data ↔ (tg.test && tg.coverHTML) = true)
      ∧ (("\t@go tool cover -html=c.out" : String).data
        <:+: (cleanRecipe tg).data ↔ (tg.test && tg.coverHTML) = true) := by
  constructor
  · rw [occ_cleanRecipe _ (by decide) tg]
    constructor
    · rintro (j1k1 | ⟨j1c2, j1o2⟩ | ⟨j1c3, j1o3⟩ | j1k4 | ⟨j1c5, j1o5⟩ | ⟨j1c6, j1o6⟩ | ⟨j1c7, j1o7⟩
        | ⟨j1c8, j1o8⟩ | ⟨j1c9, j1o9⟩ | ⟨j1c10, j1o10⟩ | ⟨j1c11, j1o11⟩ | ⟨j1c12, j1o12⟩ | j1k13)
      · exact absurd j1k1 (not_occ_shadowPiece _ (by decide) (by decide) tg)
      · exact absurd j1o2 (by decide)
      · exact absurd j1o3 (by decide)
      · exact absurd j1k4 (by decide)
      · exact absurd j1o5 (by decide)
      · exact absurd j1o6 (by decide)
      · exact absurd j1o7 (by decide)
      · exact j1c8
      · exact absurd j1o9 (by decide)
      · exact absurd j1o10 (by decide)
      · exact absurd j1o11 (not_occ_bdep _ cpuBlock (by decide) (by decide) tg.bench)
      · exact absurd j1o12 (not_occ_bdep _ memBlock (by decide) (by decide) tg.bench)
      · exact absurd j1k13 (by decide)
    · intro hc
      exact pickDisj8 ⟨hc, by decide⟩
  · rw [occ_cleanRecipe _ (by decide) tg]
    constructor
    · rintro (j2k1 | ⟨j2c2, j2o2⟩ | ⟨j2c3, j2o3⟩ | j2k4 | ⟨j2c5, j2o5⟩ | ⟨j2c6, j2o6⟩ | ⟨j2c7, j2o7⟩
        | ⟨j2c8, j2o8⟩ | ⟨j2c9, j2o9⟩ | ⟨j2c10, j2o10⟩ | ⟨j2c11, j2o11⟩ | ⟨j2c12, j2o12⟩ | j2k13)
      · exact absurd j2k1 (not_occ_shadowPiece _ (by decide) (by decide) tg)
      · exact absurd j2o2 (by decide)
      · exact absurd j2o3 (by decide)
      · exact absurd j2k4 (by decide)
      · exact absurd j2o5 (by decide)
      · exact absurd j2o6 (by decide)
      · exact absurd j2o7 (by decide)
      · exact j2c8
      · exact absurd j2o9 (by decide)
      · exact absurd j2o10 (by decide)
      · exact absurd j2o11 (not_occ_bdep _ cpuBlock (by decide) (by decide) tg.bench)
      · exact absurd j2o12 (not_occ_bdep _ memBlock (by decide) (by decide) tg.bench)
      · exact absurd j2k13 (by decide)
    · intro hc
      exact pickDisj8 ⟨hc, by decide⟩

/-- C3: the executable build block occurs in the composed recipe exactly
when the library toggle is unset and the library build block occurs exactly
when it is set, so precisely one of the two build variants appears, selected
solely by the library toggle. -/
theorem thm_C3 (tg : ToggleSet) :
    (("build: phony vet | $(BIN) ## build the binary" : String).data
        <:+: (cleanRecipe tg).data ↔ tg.library = false)
      ∧ (("build: phony vet ## build the library" : String).data
        <:+: (cleanRecipe tg).data ↔ tg.library = true) := by
  constructor
  · rw [occ_cleanRecipe _ (by decide) tg]
    constructor
    · rintro (j3k1 | ⟨j3c2, j3o2⟩ | ⟨j3c3, j3o3⟩ | j3k4 | ⟨j3c5, j3o5⟩ | ⟨j3c6, j3o6⟩ | ⟨j3c7, j3o7⟩
        | ⟨j3c8, j3o8⟩ | ⟨j3c9, j3o9⟩ | ⟨j3c10, j3o10⟩ | ⟨j3c11, j3o11⟩ | ⟨j3c12, j3o12⟩ | j3k13)
      · exact absurd j3k1 (not_occ_shadowPiece _ (by decide) (by decide) tg)
      · exact j3c2
      · exact absurd j3o3 (by decide)
      · exact absurd j3k4 (by decide)
      · exact absurd j3o5 (by decide)
      · exact absurd j3o6 (by decide)
      · exact absurd j3o7 (by decide)
      · exact absurd j3o8 (by decide)
      · exact absurd j3o9 (by decide)
      · exact absurd j3o10 (by decide)
      · exact absurd j3o11 (not_occ_bdep _ cpuBlock (by decide) (by decide) tg.bench)
      · exact absurd j3o12 (not_occ_bdep _ memBlock (by decide) (by decide) tg.bench)
      · exact absurd j3k13 (by decide)
    · intro hl
      exact pickDisj2 ⟨hl, by decide⟩
  · rw [occ_cleanRecipe _ (by decide) tg]
    constructor
    · rintro (j4k1 | ⟨j4c2, j4o2⟩ | ⟨j4c3, j4o3⟩ | j4k4 | ⟨j4c5, j4o5⟩ | ⟨j4c6, j4o6⟩ | ⟨j4c7, j4o7⟩
        | ⟨j4c8, j4o8⟩ | ⟨j4c9, j4o9⟩ | ⟨j4c10, j4o10⟩ | ⟨j4c11, j4o11⟩ | ⟨j4c12, j4o12⟩ | j4k13)
      · exact absurd j4k1 (not_occ_shadowPiece _ (by decide) (by decide) tg)
      · exact absurd j4o2 (by decide)
      · exact j4c3
      · exact absurd j4k4 (by decide)
      · exact absurd j4o5 (by decide)
      · exact absurd j4o6 (by decide)
      · exact absurd j4o7 (by decide)
      · exact absurd j4o8 (by decide)
      · exact absurd j4o9 (by decide)
      · exact absurd j4o10 (by decide)
      · exact absurd j4o11 (not_occ_bdep _ cpuBlock (by decide) (by decide) tg.bench)
      · exact absurd j4o12 (not_occ_bdep _ memBlock (by decide) (by decide) tg.bench)
      · exact absurd j4k13 (by decide)
    · intro hl
      exact pickDisj3 ⟨hl, by decide⟩

/-- C7: the CPU profiling block occurs in the composed recipe exactly when
the cpuProfile toggle is set, independently of the bench toggle; inside it
the go test invocation carries the inline benchmark flags exactly when the
bench toggle is also set, and the flagless invocation (with its two spaces)
appears exactly when it is not. -/
theorem thm_C7 (tg : ToggleSet) :
    (("test-cpu: phony vet ## test and profile CPU" : String).data
        <:+: (cleanRecipe tg).data ↔ tg.cpuProfile = true)
      ∧ (("\t@go test -bench=. -benchmem -cpuprofile cpu.out ./..." : String).data
        <:+: (cleanRecipe tg).data ↔ (tg.cpuProfile && tg.bench) = true)
      ∧ (("\t@go test  -cpuprofile cpu.out ./..." : String).data
        <:+: (cleanRecipe tg).data ↔ (tg.cpuProfile && !tg.bench) = true) := by
  refine And.intro ?_ (And.intro ?_ ?_)
  · rw [occ_cleanRecipe _ (by decide) tg]
    constructor
    · rintro (j5k1 | ⟨j5c2, j5o2⟩ | ⟨j5c3, j5o3⟩ | j5k4 | ⟨j5c5, j5o5⟩ | ⟨j5c6, j5o6⟩ | ⟨j5c7, j5o7⟩
        | ⟨j5c8, j5o8⟩ | ⟨j5c9, j5o9⟩ | ⟨j5c10, j5o10⟩ | ⟨j5c11, j5o11⟩ | ⟨j5c12, j5o12⟩ | j5k13)
      · exact absurd j5k1 (not_occ_shadowPiece _ (by decide) (by decide) tg)
      · exact absurd j5o2 (by decide)
      · exact absurd j5o3 (by decide)
      · exact absurd j5k4 (by decide)
      · exact absurd j5o5 (by decide)
      · exact absurd j5o6 (by decide)
      · exact absurd j5o7 (by decide)
      · exact absurd j5o8 (by decide)
      · exact absurd j5o9 (by decide)
      · exact absurd j5o10 (by decide)
      · exact j5c11
      · exact absurd j5o12 (not_occ_bdep _ memBlock (by decide) (by decide) tg.bench)
      · exact absurd j5k13 (by decide)
    · intro hc
      refine pickDisj11 ⟨hc, ?_⟩
      exact occ_bdep _ cpuBlock (by decide) (by decide) tg.bench
  · rw [occ_cleanRecipe _ (by decide) tg]
    constructor
    · rintro (j6k1 | ⟨j6c2, j6o2⟩ | ⟨j6c3, j6o3⟩ | j6k4 | ⟨j6c5, j6o5⟩ | ⟨j6c6, j6o6⟩ | ⟨j6c7, j6o7⟩
        | ⟨j6c8, j6o8⟩ | ⟨j6c9, j6o9⟩ | ⟨j6c10, j6o10⟩ | ⟨j6c11, j6o11⟩ | ⟨j6c12, j6o12⟩ | j6k13)
      · exact absurd j6k1 (not_occ_shadowPiece _ (by decide) (by decide) tg)
      · exact absurd j6o2 (by decide)
      · exact absurd j6o3 (by decide)
      · exact absurd j6k4 (by decide)
      · exact absurd j6o5 (by decide)
      · exact absurd j6o6 (by decide)
      · exact absurd j6o7 (by decide)
      · exact absurd j6o8 (by decide)
      · exact absurd j6o9 (by decide)
      · exact absurd j6o10 (by decide)
      · cases hb : tg.bench
        · rw [hb] at j6o11
          exact absurd j6o11 (by decide)
        · simp [j6c11, hb]
      · exact absurd j6o12 (not_occ_bdep _ memBlock (by decide) (by decide) tg.bench)
      · exact absurd j6k13 (by decide)
    · intro hc
      obtain ⟨hcp, hb⟩ : tg.cpuProfile = true ∧ tg.bench = true := by
        simpa using hc
      refine pickDisj11 ⟨hcp, ?_⟩
      rw [hb]
      decide
  · rw [occ_cleanRecipe _ (by decide) tg]
    constructor
    · rintro (j7k1 | ⟨j7c2, j7o2⟩ | ⟨j7c3, j7o3⟩ | j7k4 | ⟨j7c5, j7o5⟩ | ⟨j7c6, j7o6⟩ | ⟨j7c7, j7o7⟩
        | ⟨j7c8, j7o8⟩ | ⟨j7c9, j7o9⟩ | ⟨j7c10, j7o10⟩ | ⟨j7c11, j7o11⟩ | ⟨j7c12, j7o12⟩ | j7k13)
      · exact absurd j7k1 (not_occ_shadowPiece _ (by decide) (by decide) tg)
      · exact absurd j7o2 (by decide)
      · exact absurd j7o3 (by decide)
      · exact absurd j7k4 (by decide)
      · exact absurd j7o5 (by decide)
      · exact absurd j7o6 (by decide)
      · exact absurd j7o7 (by decide)
      · exact absurd j7o8 (by decide)
      · exact absurd j7o9 (by decide)
      · exact absurd j7o10 (by decide)
      · cases hb : tg.bench
        · simp [j7c11, hb]
        · rw [hb] at j7o11
          exact absurd j7o11 (by decide)
      · exact absurd j7o12 (not_occ_bdep _ memBlock (by decide) (by decide) tg.bench)
      · exact absurd j7k13 (by decide)
    · intro hc
      obtain ⟨hcp, hb⟩ : tg.cpuProfile = true ∧ tg.bench = false := by
        simpa using hc
      refine pickDisj11 ⟨hcp, ?_⟩
      rw [hb]
      decide

/-- C10: the static analysis step is present in the composed recipe for
every toggle set, and exactly when the shadow toggle is set the shadow
command is appended to it, directly after the `go vet` command on the same
line. -/
theorem thm_C10 (tg : ToggleSet) :
    (("vet: phony lint ## vet the codes" : String).data <:+: (cleanRecipe tg).data)
      ∧ (("\t@go vet ./...\t@shadow ./..." : String).data <:+: (cleanRecipe tg).data
        ↔ tg.shadow = true)
      ∧ (("@shadow ./..." : String).data <:+: (cleanRecipe tg).data
        ↔ tg.shadow = true) := by
  refine And.intro ?_ (And.intro ?_ ?_)
  · rw [occ_cleanRecipe _ (by decide) tg]
    exact Or.inl (occ_shadowPiece_pos _ (by decide) tg)
  · rw [occ_cleanRecipe _ (by decide) tg]
    constructor
    · rintro (j8k1 | ⟨j8c2, j8o2⟩ | ⟨j8c3, j8o3⟩ | j8k4 | ⟨j8c5, j8o5⟩ | ⟨j8c6, j8o6⟩ | ⟨j8c7, j8o7⟩
        | ⟨j8c8, j8o8⟩ | ⟨j8c9, j8o9⟩ | ⟨j8c10, j8o10⟩ | ⟨j8c11, j8o11⟩ | ⟨j8c12, j8o12⟩ | j8k13)
      · cases hs : tg.shadow
        · exfalso
          rw [show shadowPiece tg = headerText.data from by
            simp only [shadowPiece, hs, Bool.false_eq_true, if_false,
              List.append_nil]] at j8k1
          exact absurd j8k1 (by decide)
        · rfl
      · exact absurd j8o2 (by decide)
      · exact absurd j8o3 (by decide)
      · exact absurd j8k4 (by decide)
      · exact absurd j8o5 (by decide)
      · exact absurd j8o6 (by decide)
      · exact absurd j8o7 (by decide)
      · exact absurd j8o8 (by decide)
      · exact absurd j8o9 (by decide)
      · exact absurd j8o10 (by decide)
      · exact absurd j8o11 (not_occ_bdep _ cpuBlock (by decide) (by decide) tg.bench)
      · exact absurd j8o12 (not_occ_bdep _ memBlock (by decide) (by decide) tg.bench)
      · exact absurd j8k13 (by decide)
    · intro hs
      refine Or.inl ?_
      have hval : shadowPiece tg = headerText.data ++ shadowText.data := by
        simp only [shadowPiece, hs, if_true]
      rw [hval]
      decide
  · rw [occ_cleanRecipe _ (by decide) tg]
    constructor
    · rintro (j9k1 | ⟨j9c2, j9o2⟩ | ⟨j9c3, j9o3⟩ | j9k4 | ⟨j9c5, j9o5⟩ | ⟨j9c6, j9o6⟩ | ⟨j9c7, j9o7⟩
        | ⟨j9c8, j9o8⟩ | ⟨j9c9, j9o9⟩ | ⟨j9c10, j9o10⟩ | ⟨j9c11, j9o11⟩ | ⟨j9c12, j9o12⟩ | j9k13)
      · cases hs : tg.shadow
        · exfalso
          rw [show shadowPiece tg = headerText.data from by
            simp only [shadowPiece, hs, Bool.false_eq_true, if_false,
              List.append_nil]] at j9k1
          exact absurd j9k1 (by decide)
        · rfl
      · exact absurd j9o2 (by decide)
      · exact absurd j9o3 (by decide)
      · exact absurd j9k4 (by decide)
      · exact absurd j9o5 (by decide)
      · exact absurd j9o6 (by decide)
      · exact absurd j9o7 (by decide)
      · exact absurd j9o8 (by decide)
      · exact absurd j9o9 (by decide)
      · exact absurd j9o10 (by decide)
      · exact absurd j9o11 (not_occ_bdep _ cpuBlock (by decide) (by decide) tg.bench)
      · exact absurd j9o12 (not_occ_bdep _ memBlock (by decide) (by decide) tg.bench)
      · exact absurd j9k13 (by decide)
    · intro hs
      refine Or.inl ?_
      have hval : shadowPiece tg = headerText.data ++ shadowText.data := by
        simp only [shadowPiece, hs, if_true]
      rw [hval]
      decide

/-- C4: in the composed recipe the fragments occur in catalog order for
every toggle set: the formatting step comes first, the static analysis step
after it, and the build step after that, exhibited by an explicit
decomposition of the recipe text. -/
theorem thm_C4 (tg : ToggleSet) :
    ∃ a b c d, (cleanRecipe tg).data
        = a ++ ("fmt: phony ## format the codes" : String).data
          ++ b ++ ("vet: phony lint ## vet the codes" : String).data
          ++ c ++ ("build: phony vet" : String).data ++ d := by
  have hends : endsOk (shadowPiece tg) = true := by
    cases hs : tg.shadow
    · simp only [shadowPiece, hs, Bool.false_eq_true, if_false, List.append_nil]
      decide
    · simp only [shadowPiece, hs, if_true]
      decide
  have hsp2 : collapseAux 0 (shadowPiece tg) = shadowPiece tg := by
    cases hs : tg.shadow
    · simp only [shadowPiece, hs, Bool.false_eq_true, if_false, List.append_nil]
      exact collapse_headerText
    · simp only [shadowPiece, hs, if_true]
      decide
  have h0 : (cleanRecipe tg).data
      = shadowPiece tg ++ collapseAux 0 ('\n' :: '\n' :: chainB tg) := by
    simp only [cleanRecipe, normalize, data_mk]
    rw [renderData_eq, collapse_split _ hends, hsp2]
  have hhdr : shadowPiece tg
      = (headerText.data.take 173
          ++ (("fmt: phony ## format the codes" : String).data
          ++ ((headerText.data.drop 203).take 67
          ++ (("vet: phony lint ## vet the codes" : String).data
          ++ headerText.data.drop 302))))
        ++ (if tg.shadow then shadowText.data else []) := by
    rw [shadowPiece]
    congr 1
  cases hl : tg.library
  · have hcb : chainB tg = '\n' :: (("build: phony vet" : String).data
        ++ (execBody.data.drop 17 ++ chainCT tg)) := by
      simp only [chainB, hl, Bool.not_false, if_true]
      rw [show execBody.data
          = '\n' :: (("build: phony vet" : String).data ++ execBody.data.drop 17)
        from by decide]
      simp [List.append_assoc]
    refine ⟨headerText.data.take 173,
      (headerText.data.drop 203).take 67,
      headerText.data.drop 302 ++ (if tg.shadow then shadowText.data else [])
        ++ ['\n', '\n'],
      collapseAux 0 (execBody.data.drop 17 ++ chainCT tg), ?_⟩
    rw [h0, hcb, collapse_nl3,
      collapse_split (("build: phony vet" : String).data) (by decide),
      show collapseAux 3 (("build: phony vet" : String).data)
        = '\n' :: '\n' :: ("build: phony vet" : String).data from by decide,
      hhdr]
    simp [List.append_assoc]
  · have hcb : chainB tg = '\n' :: (("build: phony vet" : String).data
        ++ (libBody.data.drop 17 ++ chainCT tg)) := by
      simp only [chainB, hl, Bool.not_true, Bool.false_eq_true, if_false]
      rw [show libBody.data
          = '\n' :: (("build: phony vet" : String).data ++ libBody.data.drop 17)
        from by decide]
      simp [List.append_assoc]
    refine ⟨headerText.data.take 173,
      (headerText.data.drop 203).take 67,
      headerText.data.drop 302 ++ (if tg.shadow then shadowText.data else [])
        ++ ['\n', '\n'],
      collapseAux 0 (libBody.data.drop 17 ++ chainCT tg), ?_⟩
    rw [h0, hcb, collapse_nl3,
      collapse_split (("build: phony vet" : String).data) (by decide),
      show collapseAux 3 (("build: phony vet" : String).data)
        = '\n' :: '\n' :: ("build: phony vet" : String).data from by decide,
      hhdr]
    simp [List.append_assoc]

end Maker
